import Mathlib

/-!
Verification development for the AI-Live-Helper client.

The embedding covers:
* the PCM codec (`src/services/audioUtils.ts`): `createPcmBlob` and
  `decodeAudioData`;
* the transcript log merge rule of the UI controller
  (`src/App.tsx`, the `onTranscript` callback);
* the session client `GeminiLiveService` (`src/unnamed/part_001`):
  message handling, audio playback scheduling, interruption, the
  token ledger, the fallback text path and disconnect.

Audio samples are modelled as rationals: every numeric step of the
codec (clamping, scaling, truncation into an `Int16Array` slot,
rescaling by 1/32768) is exact in 64-bit floats for the values that
occur, so the rational semantics coincides with the JavaScript one.
-/

/-- JavaScript truncation toward zero, as applied by assignment of a
number into an `Int16Array` slot (ToIntegerOrInfinity). -/
def jsTrunc (q : ℚ) : ℤ := if 0 ≤ q then ⌊q⌋ else ⌈q⌉

/-- Wrap of an integer into the signed 16-bit range, the `ToInt16`
step of storing into an `Int16Array`. -/
def toInt16 (n : ℤ) : ℤ := (n + 32768) % 65536 - 32768

/-- `Math.max(-1, Math.min(1, data[i]))` in `createPcmBlob`. -/
def clampSample (s : ℚ) : ℚ := max (-1) (min 1 s)

/-- The scaling step of `createPcmBlob`:
`s < 0 ? s * 0x8000 : s * 0x7FFF`, truncated by the int16 store. -/
def scaleSample (c : ℚ) : ℤ := jsTrunc (if c < 0 then c * 32768 else c * 32767)

/-- One sample of `createPcmBlob` (src/services/audioUtils.ts line 34-36):
clamp to [-1,1], scale asymmetrically, store into a signed 16-bit slot. -/
def encodeSample (s : ℚ) : ℤ := toInt16 (scaleSample (clampSample s))

/-- `createPcmBlob` (src/services/audioUtils.ts): the contents of the
`Int16Array` built from the input samples. -/
def createPcmBlob (data : List ℚ) : List ℤ := data.map encodeSample

/-- The byte view of an `Int16Array` buffer (little endian), which is
what `createPcmBlob` base64-encodes and `decodeAudioData` receives. -/
def int16ToBytesLE : List ℤ → List ℕ
  | [] => []
  | x :: rest =>
      ((x % 65536) % 256).toNat :: ((x % 65536) / 256).toNat :: int16ToBytesLE rest

/-- The padding step of `decodeAudioData` (lines 51-55): when the byte
length is odd, one zero byte is appended. -/
def padEven (bs : List ℕ) : List ℕ := if bs.length % 2 = 1 then bs ++ [0] else bs

/-- `new Int16Array(data.buffer, data.byteOffset, data.byteLength / 2)`:
reinterpret bytes as little-endian signed 16-bit integers. -/
def bytesToInt16LE : List ℕ → List ℤ
  | [] => []
  | [_] => []
  | b0 :: b1 :: rest => toInt16 ((b0 : ℤ) + 256 * (b1 : ℤ)) :: bytesToInt16LE rest

/-- The rescaling step of `decodeAudioData`: `dataInt16[...] / 32768.0`. -/
def decodeSample (i : ℤ) : ℚ := (i : ℚ) / 32768

/-- `decodeAudioData` (src/services/audioUtils.ts lines 44-72): pad to an
even byte length, reinterpret as int16 little endian, deinterleave into
`numChannels` channel buffers, rescale each value by 1/32768. -/
def decodeAudioData (bs : List ℕ) (numChannels : ℕ) : List (List ℚ) :=
  let samples := bytesToInt16LE (padEven bs)
  let frameCount := samples.length / numChannels
  (List.range numChannels).map fun ch =>
    (List.range frameCount).map fun i => decodeSample (samples.getD (i * numChannels + ch) 0)

/-- The mono round trip `decode(encode(s))` of the spec: encode the
samples, serialize the int16 buffer as bytes, decode at one channel and
take the single channel buffer. -/
def pcmRoundTrip (data : List ℚ) : List ℚ :=
  (decodeAudioData (int16ToBytesLE (createPcmBlob data)) 1).headD []

lemma toInt16_eq_self {n : ℤ} (h1 : -32768 ≤ n) (h2 : n < 32768) : toInt16 n = n := by
  unfold toInt16
  omega

lemma clampSample_mem (s : ℚ) : -1 ≤ clampSample s ∧ clampSample s ≤ 1 := by
  unfold clampSample
  constructor
  · exact le_max_left _ _
  · exact max_le (by norm_num) (min_le_left _ _)

lemma clampSample_of_mem {s : ℚ} (h1 : -1 ≤ s) (h2 : s ≤ 1) : clampSample s = s := by
  unfold clampSample
  rw [min_eq_right h2, max_eq_right h1]

lemma clampSample_idem (s : ℚ) : clampSample (clampSample s) = clampSample s :=
  clampSample_of_mem (clampSample_mem s).1 (clampSample_mem s).2

lemma jsTrunc_nonneg_bounds {q : ℚ} (h : 0 ≤ q) :
    (jsTrunc q : ℚ) ≤ q ∧ q - 1 < (jsTrunc q : ℚ) := by
  rw [jsTrunc, if_pos h]
  exact ⟨Int.floor_le q, Int.sub_one_lt_floor q⟩

lemma jsTrunc_neg_bounds {q : ℚ} (h : q < 0) :
    q ≤ (jsTrunc q : ℚ) ∧ (jsTrunc q : ℚ) < q + 1 := by
  rw [jsTrunc, if_neg (by linarith)]
  exact ⟨Int.le_ceil q, Int.ceil_lt_add_one q⟩

/-- Range of the scaled sample for a clamped input. -/
lemma scaleSample_range {c : ℚ} (h1 : -1 ≤ c) (h2 : c ≤ 1) :
    -32768 ≤ scaleSample c ∧ scaleSample c ≤ 32767 := by
  unfold scaleSample
  by_cases hc : c < 0
  · rw [if_pos hc]
    have harg : c * 32768 < 0 := by nlinarith
    obtain ⟨hl, hr⟩ := jsTrunc_neg_bounds harg
    have hlo : (-32768 : ℚ) ≤ c * 32768 := by nlinarith
    constructor
    · exact_mod_cast le_trans hlo hl
    · have : (jsTrunc (c * 32768) : ℚ) < 1 := by linarith
      have : jsTrunc (c * 32768) < 1 := by exact_mod_cast this
      omega
  · rw [if_neg hc]
    push_neg at hc
    have harg : 0 ≤ c * 32767 := by nlinarith
    obtain ⟨hl, hr⟩ := jsTrunc_nonneg_bounds harg
    have hhi : c * 32767 ≤ 32767 := by nlinarith
    constructor
    · have : (-32768 : ℚ) < jsTrunc (c * 32767) := by linarith
      have : (-32768 : ℤ) < jsTrunc (c * 32767) := by exact_mod_cast this
      omega
    · have : (jsTrunc (c * 32767) : ℚ) ≤ 32767 := by linarith
      exact_mod_cast this

/-- Quantization error of one encode/decode round trip on a clamped
sample: below 1/32768 on the non-positive side, below 2/32768 = 1/16384
in general (the positive side is scaled by 32767 but decoded by 32768). -/
lemma roundtrip_sample_err {c : ℚ} (h1 : -1 ≤ c) (h2 : c ≤ 1) :
    |decodeSample (scaleSample c) - c| < 1 / 16384 := by
  unfold decodeSample scaleSample
  by_cases hc : c < 0
  · rw [if_pos hc]
    have harg : c * 32768 < 0 := by nlinarith
    obtain ⟨hl, hr⟩ := jsTrunc_neg_bounds harg
    rw [abs_lt]
    constructor <;> [nlinarith; nlinarith]
  · rw [if_neg hc]
    push_neg at hc
    have harg : 0 ≤ c * 32767 := by nlinarith
    obtain ⟨hl, hr⟩ := jsTrunc_nonneg_bounds harg
    rw [abs_lt]
    constructor <;> [nlinarith; nlinarith]

lemma encodeSample_eq_scale (s : ℚ) : encodeSample s = scaleSample (clampSample s) := by
  obtain ⟨h1, h2⟩ := clampSample_mem s
  obtain ⟨hl, hr⟩ := scaleSample_range h1 h2
  exact toInt16_eq_self hl (by omega)

lemma encodeSample_range (s : ℚ) :
    -32768 ≤ encodeSample s ∧ encodeSample s < 32768 := by
  rw [encodeSample_eq_scale]
  obtain ⟨h1, h2⟩ := clampSample_mem s
  obtain ⟨hl, hr⟩ := scaleSample_range h1 h2
  exact ⟨hl, by omega⟩

/-- Encoding clamps: out-of-range samples are encoded exactly like their
clamped value (never wrapped). -/
lemma encodeSample_clamps (s : ℚ) : encodeSample s = encodeSample (clampSample s) := by
  unfold encodeSample
  rw [clampSample_idem]

/-- Serializing int16 values as little-endian bytes and reinterpreting
them recovers the values, provided they are in signed 16-bit range. -/
lemma bytesToInt16LE_int16ToBytesLE (xs : List ℤ)
    (h : ∀ x ∈ xs, -32768 ≤ x ∧ x < 32768) :
    bytesToInt16LE (int16ToBytesLE xs) = xs := by
  induction xs with
  | nil => rfl
  | cons x rest ih =>
    obtain ⟨hx1, hx2⟩ := h x (List.mem_cons_self x rest)
    have hrest := ih (fun y hy => h y (List.mem_cons_of_mem x hy))
    have hm : (0 : ℤ) ≤ x % 65536 := Int.emod_nonneg x (by norm_num)
    have hm2 : x % 65536 < 65536 := Int.emod_lt_of_pos x (by norm_num)
    have hlo : (0 : ℤ) ≤ (x % 65536) % 256 := Int.emod_nonneg _ (by norm_num)
    have hhi : (0 : ℤ) ≤ (x % 65536) / 256 := Int.ediv_nonneg hm (by norm_num)
    have key : toInt16 (((((x % 65536) % 256).toNat : ℕ) : ℤ) +
        256 * ((((x % 65536) / 256).toNat : ℕ) : ℤ)) = x := by
      rw [Int.toNat_of_nonneg hlo, Int.toNat_of_nonneg hhi]
      unfold toInt16
      omega
    calc bytesToInt16LE (int16ToBytesLE (x :: rest))
        = toInt16 (((((x % 65536) % 256).toNat : ℕ) : ℤ) +
            256 * ((((x % 65536) / 256).toNat : ℕ) : ℤ)) ::
          bytesToInt16LE (int16ToBytesLE rest) := rfl
      _ = x :: rest := by rw [key, hrest]

lemma int16ToBytesLE_length (xs : List ℤ) :
    (int16ToBytesLE xs).length = 2 * xs.length := by
  induction xs with
  | nil => rfl
  | cons x rest ih =>
    simp only [int16ToBytesLE, List.length_cons, ih]
    omega

lemma bytesToInt16LE_length : ∀ bs : List ℕ, (bytesToInt16LE bs).length = bs.length / 2
  | [] => rfl
  | [_] => by simp [bytesToInt16LE]
  | _ :: _ :: rest => by
    simp only [bytesToInt16LE, List.length_cons, bytesToInt16LE_length rest]
    omega

lemma padEven_of_even {bs : List ℕ} (h : bs.length % 2 = 0) : padEven bs = bs := by
  unfold padEven
  rw [if_neg (by omega)]

lemma padEven_of_odd {bs : List ℕ} (h : bs.length % 2 = 1) : padEven bs = bs ++ [0] := by
  unfold padEven
  rw [if_pos h]

lemma range_getD_map {α β : Type} (f : α → β) (d : α) (l : List α) :
    (List.range l.length).map (fun i => f (l.getD i d)) = l.map f := by
  induction l with
  | nil => rfl
  | cons a t ih =>
    rw [List.length_cons, List.range_succ_eq_map, List.map_cons, List.map_map,
      List.map_cons]
    congr 1

/-- Single-channel decode is the int16 reinterpretation of the padded
bytes, rescaled by 1/32768. -/
lemma decodeAudioData_mono (bs : List ℕ) :
    decodeAudioData bs 1 = [(bytesToInt16LE (padEven bs)).map decodeSample] := by
  unfold decodeAudioData
  simp only [List.range_succ, List.range_zero, List.nil_append, List.map_cons,
    List.map_nil, Nat.div_one, mul_one, add_zero]
  congr 1
  exact range_getD_map decodeSample 0 (bytesToInt16LE (padEven bs))

lemma pcmRoundTrip_eq (s : List ℚ) :
    pcmRoundTrip s = s.map (fun x => decodeSample (encodeSample x)) := by
  unfold pcmRoundTrip
  have hlen : (int16ToBytesLE (createPcmBlob s)).length % 2 = 0 := by
    rw [int16ToBytesLE_length]
    omega
  rw [decodeAudioData_mono, padEven_of_even hlen,
    bytesToInt16LE_int16ToBytesLE _ (fun x hx => by
      unfold createPcmBlob at hx
      obtain ⟨y, _, rfl⟩ := List.mem_map.mp hx
      exact encodeSample_range y)]
  simp [createPcmBlob, List.map_map, Function.comp]

lemma decodeSample_encodeSample_zero : decodeSample (encodeSample 0) = 0 := by
  have h0 : encodeSample 0 = 0 := by
    rw [encodeSample_eq_scale, clampSample_of_mem (by norm_num) (by norm_num)]
    unfold scaleSample
    rw [if_neg (by norm_num)]
    norm_num [jsTrunc]
  rw [h0]
  norm_num [decodeSample]

lemma map_getD_zero (l : List ℚ) (g : ℚ → ℚ) (hg : g 0 = 0) (i : ℕ) :
    (l.map g).getD i 0 = g (l.getD i 0) := by
  induction l generalizing i with
  | nil => simp [List.getD, hg]
  | cons a t ih =>
    cases i with
    | zero => rfl
    | succ j => simpa using ih j

lemma roundtrip_encode_err {c : ℚ} (h1 : -1 ≤ c) (h2 : c ≤ 1) :
    |decodeSample (encodeSample c) - c| < 1 / 16384 := by
  rw [encodeSample_eq_scale, clampSample_of_mem h1 h2]
  exact roundtrip_sample_err h1 h2

/-- C3: claim as stated is FALSE. The positive side is scaled by 32767 on
encode but decoded by 1/32768, and truncation loses up to one more step:
at the in-range sample 65533/65536 the mono round trip errs by 3/65536,
which exceeds the claimed 1/32768 bound. -/
theorem C3_counterexample :
    (∀ x ∈ [(65533 : ℚ)/65536], -1 ≤ x ∧ x ≤ 1) ∧
    (pcmRoundTrip [(65533 : ℚ)/65536]).length = 1 ∧
    1/32768 < |(pcmRoundTrip [(65533 : ℚ)/65536]).getD 0 0 - (65533 : ℚ)/65536| := by
  have henc : encodeSample ((65533 : ℚ)/65536) = 32765 := by
    rw [encodeSample_eq_scale, clampSample_of_mem (by norm_num) (by norm_num)]
    unfold scaleSample
    rw [if_neg (by norm_num)]
    norm_num [jsTrunc]
  refine ⟨by norm_num, by simp [pcmRoundTrip_eq], ?_⟩
  rw [pcmRoundTrip_eq]
  simp only [List.map_cons, List.map_nil, henc, List.getD_cons_zero]
  have hval : decodeSample 32765 - (65533 : ℚ)/65536 = -(3/65536) := by
    norm_num [decodeSample]
  rw [hval, abs_neg, abs_of_nonneg (by norm_num : (0 : ℚ) ≤ 3/65536)]
  norm_num

/-- C3 (amended): for every sample array with values in [-1,1] the round
trip `decode(encode(s))` preserves length and reproduces each sample
within a per-sample error strictly below 2/32768 = 1/16384 (1/32768 on
the non-positive side), and any sample is encoded exactly like its
clamped value: out-of-range values are clamped, never wrapped. -/
theorem C3_codec_roundtrip (s : List ℚ) (h : ∀ x ∈ s, -1 ≤ x ∧ x ≤ 1) :
    (pcmRoundTrip s).length = s.length ∧
    (∀ i : ℕ, |(pcmRoundTrip s).getD i 0 - s.getD i 0| < 1/16384) ∧
    (∀ x : ℚ, encodeSample x = encodeSample (clampSample x)) := by
  refine ⟨by simp [pcmRoundTrip_eq], ?_, encodeSample_clamps⟩
  intro i
  rw [pcmRoundTrip_eq, map_getD_zero _ _ decodeSample_encodeSample_zero]
  by_cases hi : i < s.length
  · have hmem : s.getD i 0 ∈ s := by
      rw [List.getD_eq_getElem s 0 hi]
      exact List.getElem_mem hi
    exact roundtrip_encode_err (h _ hmem).1 (h _ hmem).2
  · have hd : s.getD i 0 = 0 := List.getD_eq_default s 0 (by omega)
    rw [hd]
    exact roundtrip_encode_err (by norm_num) (by norm_num)

theorem C3_codec_roundtrip_witness :
    (∀ x ∈ [(1 : ℚ)/2], -1 ≤ x ∧ x ≤ 1) ∧
    ((pcmRoundTrip [(1 : ℚ)/2]).length = ([(1 : ℚ)/2] : List ℚ).length ∧
     (∀ i : ℕ, |(pcmRoundTrip [(1 : ℚ)/2]).getD i 0 - ([(1 : ℚ)/2] : List ℚ).getD i 0| < 1/16384) ∧
     (∀ x : ℚ, encodeSample x = encodeSample (clampSample x))) :=
  ⟨by norm_num, C3_codec_roundtrip [(1 : ℚ)/2] (by norm_num)⟩

lemma decodeAudioData_pad_congr {bs bs2 : List ℕ} (c : ℕ)
    (h : padEven bs = padEven bs2) : decodeAudioData bs c = decodeAudioData bs2 c := by
  unfold decodeAudioData
  rw [h]

/-- C9: decode on a byte array of odd length treats the dangling byte as
zero padding: it equals decode of the explicitly zero-padded array, the
mono channel holds (len+1)/2 samples, and each sample is the
little-endian int16 reinterpretation rescaled by 1/32768. -/
theorem C9_decode_odd (bs : List ℕ) (c : ℕ) (h : bs.length % 2 = 1) :
    decodeAudioData bs c = decodeAudioData (bs ++ [0]) c ∧
    ((decodeAudioData bs 1).headD []).length = (bs.length + 1) / 2 ∧
    (decodeAudioData bs 1).headD [] = (bytesToInt16LE (bs ++ [0])).map decodeSample := by
  have hpad : padEven bs = bs ++ [0] := padEven_of_odd h
  have heven : (bs ++ [0]).length % 2 = 0 := by
    simp only [List.length_append, List.length_cons, List.length_nil]
    omega
  have hpad2 : padEven (bs ++ [0]) = bs ++ [0] := padEven_of_even heven
  refine ⟨?_, ?_, ?_⟩
  · exact decodeAudioData_pad_congr c (hpad.trans hpad2.symm)
  · rw [decodeAudioData_mono, hpad]
    simp only [List.headD_cons, List.length_map, bytesToInt16LE_length,
      List.length_append, List.length_cons, List.length_nil]
  · rw [decodeAudioData_mono, hpad]
    rfl

theorem C9_decode_odd_witness :
    ([(7 : ℕ)] : List ℕ).length % 2 = 1 ∧
    (decodeAudioData [7] 3 = decodeAudioData ([7] ++ [0]) 3 ∧
     ((decodeAudioData [7] 1).headD []).length = (([(7 : ℕ)] : List ℕ).length + 1) / 2 ∧
     (decodeAudioData [7] 1).headD [] = (bytesToInt16LE ([7] ++ [0])).map decodeSample) :=
  ⟨rfl, C9_decode_odd [7] 3 rfl⟩

/-- Senders of transcript entries (src/types.ts). -/
inductive Sender
  | user
  | ai
  | system
deriving DecidableEq, Repr

/-- A transcript log entry of the UI controller (src/types.ts `LogEntry`).
The random `id` string is omitted: it is freshly generated per appended
entry and nothing reads it. Timestamps are integer epoch milliseconds. -/
structure LogEntry where
  sender : Sender
  message : String
  isFinal : Bool
  responseTime : Option ℤ
  timestamp : ℤ
deriving DecidableEq, Repr

def defaultEntry : LogEntry := ⟨Sender.system, "", true, none, 0⟩

/-- `responseTime !== undefined ? responseTime : lastLog.responseTime`. -/
def keepResponseTime (new old : Option ℤ) : Option ℤ :=
  match new with
  | some r => some r
  | none => old

/-- The `onTranscript` callback of src/App.tsx (lines 155-178): a new
update replaces the last log entry in place when that entry has the same
sender and is non-final (keeping its previous response time unless a new
one is supplied); otherwise a fresh entry is appended. -/
def onTranscriptUpdate (prev : List LogEntry) (text : String) (sender : Sender)
    (isFinal : Bool) (responseTime : Option ℤ) (now : ℤ) : List LogEntry :=
  match prev.getLast? with
  | some lastLog =>
    if lastLog.sender = sender ∧ lastLog.isFinal = false then
      prev.dropLast ++
        [⟨lastLog.sender, text, isFinal, keepResponseTime responseTime lastLog.responseTime, now⟩]
    else
      prev ++ [⟨sender, text, isFinal, responseTime, now⟩]
  | none =>
      prev ++ [⟨sender, text, isFinal, responseTime, now⟩]

lemma getD_append_left {α : Type} (l l2 : List α) (d : α) (i : ℕ) (h : i < l.length) :
    (l ++ l2).getD i d = l.getD i d := by
  induction l generalizing i with
  | nil => simp at h
  | cons a t ih =>
    cases i with
    | zero => rfl
    | succ j =>
      simp only [List.cons_append, List.getD_cons_succ]
      exact ih j (by simpa using h)

lemma getD_concat_self {α : Type} (l : List α) (a d : α) :
    (l ++ [a]).getD l.length d = a := by
  induction l with
  | nil => rfl
  | cons b t ih => simpa using ih

lemma onTranscriptUpdate_concat_merge (l : List LogEntry) (a : LogEntry)
    (text : String) (sender : Sender) (isFinal : Bool) (rt : Option ℤ) (now : ℤ)
    (h1 : a.sender = sender) (h2 : a.isFinal = false) :
    onTranscriptUpdate (l ++ [a]) text sender isFinal rt now =
      l ++ [⟨a.sender, text, isFinal, keepResponseTime rt a.responseTime, now⟩] := by
  unfold onTranscriptUpdate
  rw [List.getLast?_concat]
  simp only
  rw [if_pos ⟨h1, h2⟩, List.dropLast_concat]

lemma onTranscriptUpdate_concat_append (l : List LogEntry) (a : LogEntry)
    (text : String) (sender : Sender) (isFinal : Bool) (rt : Option ℤ) (now : ℤ)
    (h : ¬(a.sender = sender ∧ a.isFinal = false)) :
    onTranscriptUpdate (l ++ [a]) text sender isFinal rt now =
      (l ++ [a]) ++ [⟨sender, text, isFinal, rt, now⟩] := by
  unfold onTranscriptUpdate
  rw [List.getLast?_concat]
  simp only
  rw [if_neg h]

lemma onTranscriptUpdate_nil (text : String) (sender : Sender) (isFinal : Bool)
    (rt : Option ℤ) (now : ℤ) :
    onTranscriptUpdate [] text sender isFinal rt now =
      [⟨sender, text, isFinal, rt, now⟩] := rfl

/-- After any non-final update the log is a concatenation ending in a
non-final entry of that sender carrying the update's text. -/
lemma onTranscriptUpdate_last (prev : List LogEntry) (text : String)
    (sender : Sender) (rt : Option ℤ) (now : ℤ) :
    ∃ front rt2, onTranscriptUpdate prev text sender false rt now =
      front ++ [⟨sender, text, false, rt2, now⟩] := by
  rcases prev.eq_nil_or_concat with rfl | ⟨l, a, h⟩
  case inl => exact ⟨[], rt, onTranscriptUpdate_nil text sender false rt now⟩
  rw [List.concat_eq_append] at h
  subst h
  · by_cases hc : a.sender = sender ∧ a.isFinal = false
    · refine ⟨l, keepResponseTime rt a.responseTime, ?_⟩
      rw [onTranscriptUpdate_concat_merge l a text sender false rt now hc.1 hc.2, hc.1]
    · exact ⟨l ++ [a], rt, onTranscriptUpdate_concat_append l a text sender false rt now hc⟩

/-- C1: a non-final update for a sender merges into the log's most recent
entry exactly when that entry is the sender's own unfinished entry
(otherwise it appends); finalized entries are never overwritten in
place; and two consecutive non-final updates for the same sender
contribute exactly one log entry, the second replacing the first. -/
theorem C1_log_merge (prev : List LogEntry) (text t2 : String) (sender : Sender)
    (rt rt2 : Option ℤ) (now n2 : ℤ) :
    (((onTranscriptUpdate prev text sender false rt now).length = prev.length) ↔
      ∃ l, prev.getLast? = some l ∧ l.sender = sender ∧ l.isFinal = false) ∧
    ((¬∃ l, prev.getLast? = some l ∧ l.sender = sender ∧ l.isFinal = false) →
      onTranscriptUpdate prev text sender false rt now =
        prev ++ [⟨sender, text, false, rt, now⟩]) ∧
    (∀ i : ℕ, i < prev.length → (prev.getD i defaultEntry).isFinal = true →
      (onTranscriptUpdate prev text sender false rt now).getD i defaultEntry =
        prev.getD i defaultEntry) ∧
    ((onTranscriptUpdate (onTranscriptUpdate prev text sender false rt now)
          t2 sender false rt2 n2).length =
        (onTranscriptUpdate prev text sender false rt now).length ∧
      (onTranscriptUpdate (onTranscriptUpdate prev text sender false rt now)
          t2 sender false rt2 n2).getLast?.map LogEntry.message = some t2) := by
  have consec : (onTranscriptUpdate (onTranscriptUpdate prev text sender false rt now)
        t2 sender false rt2 n2).length =
      (onTranscriptUpdate prev text sender false rt now).length ∧
      (onTranscriptUpdate (onTranscriptUpdate prev text sender false rt now)
        t2 sender false rt2 n2).getLast?.map LogEntry.message = some t2 := by
    obtain ⟨front, rtx, hfirst⟩ := onTranscriptUpdate_last prev text sender rt now
    rw [hfirst, onTranscriptUpdate_concat_merge front _ t2 sender false rt2 n2 rfl rfl]
    refine ⟨by simp, ?_⟩
    rw [List.getLast?_concat]
    rfl
  rcases prev.eq_nil_or_concat with rfl | ⟨l, a, h⟩
  case inl =>
    refine ⟨?_, ?_, ?_, consec⟩
    · rw [onTranscriptUpdate_nil]
      simp
    · intro _
      exact onTranscriptUpdate_nil text sender false rt now
    · intro i hi
      simp at hi
  rw [List.concat_eq_append] at h
  subst h
  by_cases hc : a.sender = sender ∧ a.isFinal = false
  · have hmerge := onTranscriptUpdate_concat_merge l a text sender false rt now hc.1 hc.2
    refine ⟨?_, ?_, ?_, consec⟩
    · rw [hmerge]
      exact iff_of_true (by simp) ⟨a, List.getLast?_concat l, hc.1, hc.2⟩
    · intro hno
      exact absurd ⟨a, List.getLast?_concat l, hc.1, hc.2⟩ hno
    · intro i hi hfin
      rw [hmerge]
      have hi2 : i < l.length + 1 := by simpa using hi
      rcases Nat.lt_or_ge i l.length with hlt | hge
      · rw [getD_append_left l _ defaultEntry i hlt, getD_append_left l _ defaultEntry i hlt]
      · have hieq : i = l.length := by omega
        subst hieq
        rw [getD_concat_self l a defaultEntry] at hfin
        rw [hc.2] at hfin
        cases hfin
  · have happ := onTranscriptUpdate_concat_append l a text sender false rt now hc
    refine ⟨?_, ?_, ?_, consec⟩
    · rw [happ]
      simp only [List.length_append, List.length_cons, List.length_nil]
      refine iff_of_false (by omega) ?_
      rintro ⟨e, he, hs, hf⟩
      rw [List.getLast?_concat] at he
      cases he
      exact hc ⟨hs, hf⟩
    · intro _
      exact happ
    · intro i hi _
      rw [happ, getD_append_left (l ++ [a]) _ defaultEntry i hi]

theorem C1_log_merge_witness :
    ((((onTranscriptUpdate [⟨Sender.user, "a", true, none, 0⟩] "x" Sender.ai false none 1).length =
        ([⟨Sender.user, "a", true, none, 0⟩] : List LogEntry).length) ↔
      ∃ l, ([⟨Sender.user, "a", true, none, 0⟩] : List LogEntry).getLast? = some l ∧
        l.sender = Sender.ai ∧ l.isFinal = false) ∧
    ((¬∃ l, ([⟨Sender.user, "a", true, none, 0⟩] : List LogEntry).getLast? = some l ∧
        l.sender = Sender.ai ∧ l.isFinal = false) →
      onTranscriptUpdate [⟨Sender.user, "a", true, none, 0⟩] "x" Sender.ai false none 1 =
        [⟨Sender.user, "a", true, none, 0⟩] ++ [⟨Sender.ai, "x", false, none, 1⟩]) ∧
    (∀ i : ℕ, i < ([⟨Sender.user, "a", true, none, 0⟩] : List LogEntry).length →
      (([⟨Sender.user, "a", true, none, 0⟩] : List LogEntry).getD i defaultEntry).isFinal = true →
      (onTranscriptUpdate [⟨Sender.user, "a", true, none, 0⟩] "x" Sender.ai false none 1).getD
          i defaultEntry =
        ([⟨Sender.user, "a", true, none, 0⟩] : List LogEntry).getD i defaultEntry) ∧
    ((onTranscriptUpdate
          (onTranscriptUpdate [⟨Sender.user, "a", true, none, 0⟩] "x" Sender.ai false none 1)
          "y" Sender.ai false none 2).length =
        (onTranscriptUpdate [⟨Sender.user, "a", true, none, 0⟩] "x" Sender.ai false none 1).length ∧
      (onTranscriptUpdate
          (onTranscriptUpdate [⟨Sender.user, "a", true, none, 0⟩] "x" Sender.ai false none 1)
          "y" Sender.ai false none 2).getLast?.map LogEntry.message = some "y")) :=
  C1_log_merge [⟨Sender.user, "a", true, none, 0⟩] "x" "y" Sender.ai none none 1 2

/-- Usage statistics snapshot (src/types.ts `UsageStats`). -/
structure UsageStats where
  imagesSent : ℕ
  modelTurns : ℕ
  estimatedTokens : ℕ
  tokensPerMinute : ℕ
deriving DecidableEq, Repr

/-- A scheduled playback source node. `raisesOnStop` models whether the
external `stop()` call would throw (e.g. a node never started). -/
structure SourceNode where
  raisesOnStop : Bool
deriving DecidableEq, Repr

/-- The mutable state of `GeminiLiveService` (src/unnamed/part_001).
External handles are modelled by their observable condition: the session
handle by whether it is non-null, the audio contexts by presence, timers
by whether they are installed. Times are epoch milliseconds (ℤ) for
`Date.now()` and seconds (ℚ) for the audio-context clock. -/
structure ServiceState where
  sessionActive : Bool
  statsIntervalActive : Bool
  volumeIntervalActive : Bool
  hasOutputCtx : Bool
  nextStartTime : ℚ
  audioSources : List SourceNode
  synthSpeaking : Bool
  synthPending : Bool
  currentInputTranscription : String
  currentOutputTranscription : String
  lastFrame : Option String
  isVideoStreamActive : Bool
  lastUserInteractionTime : ℤ
  responsePending : Bool
  currentTurnLatency : Option ℤ
  stats : UsageStats
  tokenHistory : List (ℤ × ℕ)
deriving Repr

/-- Field initializers of `GeminiLiveService` (part_001 lines 104-148). -/
def initialState : ServiceState where
  sessionActive := false
  statsIntervalActive := false
  volumeIntervalActive := false
  hasOutputCtx := false
  nextStartTime := 0
  audioSources := []
  synthSpeaking := false
  synthPending := false
  currentInputTranscription := ""
  currentOutputTranscription := ""
  lastFrame := none
  isVideoStreamActive := true
  lastUserInteractionTime := 0
  responsePending := false
  currentTurnLatency := none
  stats := ⟨0, 0, 0, 0⟩
  tokenHistory := []

/-- Observable effects of the service: UI callbacks and outbound sends,
plus the two session-teardown actions whose order claim C5 cites. -/
inductive Event
  | transcript (text : String) (sender : Sender) (isFinal : Bool) (responseTime : Option ℤ)
  | statsEv (stats : UsageStats)
  | connected
  | disconnected
  | toolResponse (responses : List (String × String × String))
  | realtimeImage (frame : String)
  | clientText (text : String)
  | nullSession
  | closeSession
deriving DecidableEq, Repr

/-- JavaScript `String.prototype.trim`: strip whitespace at both ends. -/
def jsTrim (s : String) : String :=
  (((s.toList.dropWhile Char.isWhitespace).reverse.dropWhile Char.isWhitespace).reverse).asString

/-- The sanitizing step of `processTTSChunk`: drop the markdown
characters star, underscore and backquote (the `[*_\x60]` regex). -/
def cleanTTS (s : String) : String :=
  (s.toList.filter fun ch => ch ≠ '*' ∧ ch ≠ '_' ∧ ch ≠ '\x60').asString

/-- `updateStats` (part_001 lines 181-193): drop ledger entries older
than sixty seconds, sum the rest into `tokensPerMinute`, notify the UI. -/
def updateStats (now : ℤ) (st : ServiceState) : ServiceState × List Event :=
  let hist := st.tokenHistory.filter fun e => decide (e.1 > now - 60000)
  let tpm := (hist.map fun e => e.2).sum
  let st2 := { st with tokenHistory := hist,
                       stats := { st.stats with tokensPerMinute := tpm } }
  (st2, [Event.statsEv st2.stats])

/-- `recordTokenUsage` (part_001 lines 173-179): push a ledger entry,
then recompute the stats (the push itself does not filter). -/
def recordTokenUsage (now : ℤ) (count : ℕ) (st : ServiceState) : ServiceState × List Event :=
  updateStats now { st with tokenHistory := st.tokenHistory ++ [(now, count)] }

/-- `source.stop()` on one pending node; raises when the handle does. -/
def stopSource (s : SourceNode) : Except String Unit :=
  if s.raisesOnStop then Except.error "InvalidStateError" else Except.ok ()

/-- The loop of `stopAudioOutput` over the pending set: each stop is
wrapped in `try ... catch(e) \x7b\x7d`, so failures are swallowed. -/
def stopAllSources : List SourceNode → Except String Unit
  | [] => Except.ok ()
  | s :: rest =>
    match stopSource s with
    | Except.ok _ => stopAllSources rest
    | Except.error _ => stopAllSources rest

/-- `stopAudioOutput` (part_001 lines 513-528): stop and clear every
pending source, reset the playback cursor to the output clock, and
cancel browser speech synthesis (a no-op when idle). -/
def stopAudioOutput (ctxTime : ℚ) (st : ServiceState) : ServiceState :=
  { st with
    audioSources := [],
    nextStartTime := if st.hasOutputCtx then ctxTime else st.nextStartTime,
    synthSpeaking := false,
    synthPending := false }

/-- `scheduleAudioPlay` (part_001 lines 470-511): with an output context
present, push the cursor to `currentTime + 0.05` when it fell behind the
clock, schedule the chunk there and advance by its duration. The gain
ramp is configuration of an external node and has no further state. -/
def scheduleAudioPlay (ctxTime : ℚ) (dur : ℚ) (st : ServiceState) : ServiceState :=
  if st.hasOutputCtx then
    let start := if st.nextStartTime < ctxTime then ctxTime + 1/20 else st.nextStartTime
    { st with nextStartTime := start + dur,
              audioSources := st.audioSources ++ [⟨false⟩] }
  else st

/-- A backend tool-call request. The JSON argument payload is kept
abstract: handlers are external callbacks. -/
structure FunctionCall where
  id : String
  name : String
  args : String
deriving DecidableEq, Repr

/-- One inbound live-API message (the fields of `LiveServerMessage` that
`handleMessage` reads). `audioData` holds the already base64-decoded
bytes of the first part's inline data. -/
structure ServerMessage where
  toolCall : Option (List FunctionCall)
  audioData : Option (List ℕ)
  interrupted : Bool
  inputTranscription : Option String
  outputTranscription : Option String
  turnComplete : Bool
deriving Repr

/-- Truthiness of `message.serverContent?.modelTurn?.parts?.[0]?.inlineData?.data`:
an empty payload is falsy. -/
def msgAudioBytes (m : ServerMessage) : Option (List ℕ) :=
  match m.audioData with
  | some d => if d = [] then none else some d
  | none => none

/-- Step "track user input activity" of `handleMessage` (lines 379-383). -/
def trackInputActivity (now : ℤ) (msg : ServerMessage) (st : ServiceState) : ServiceState :=
  if msg.inputTranscription.isSome then
    { st with lastUserInteractionTime := now, responsePending := true,
              currentTurnLatency := none }
  else st

/-- Step 1 of `handleMessage` (lines 386-408): execute every requested
tool call, log each as a system entry, and send one batched tool
response when a session exists and calls were made. -/
def handleToolCalls (exec : FunctionCall → String) (msg : ServerMessage)
    (st : ServiceState) : List Event :=
  let toolResults := (msg.toolCall.getD []).map fun fc => (fc.id, fc.name, exec fc)
  (toolResults.map fun r =>
    Event.transcript ("[Tool Executed: " ++ r.2.1 ++ "] -> " ++ r.2.2) Sender.system true none) ++
    (if st.sessionActive ∧ toolResults ≠ [] then [Event.toolResponse toolResults] else [])

/-- Step 2 of `handleMessage`, latency part (lines 413-419): on the
first audio of a pending response, record the round-trip latency and
proactively re-emit the (possibly empty) output transcript with it. -/
def handleAudioLatency (now : ℤ) (msg : ServerMessage) (st : ServiceState) :
    ServiceState × List Event :=
  if (msgAudioBytes msg).isSome ∧ st.responsePending then
    ({ st with currentTurnLatency := some (now - st.lastUserInteractionTime),
               responsePending := false },
     [Event.transcript st.currentOutputTranscription Sender.ai false
       (some (now - st.lastUserInteractionTime))])
  else (st, [])

/-- Step 2 of `handleMessage`, playback part (lines 421-429): decode the
chunk (24 kHz mono) and schedule it when an output context exists. -/
def handleAudioSchedule (ctx : ℚ) (msg : ServerMessage) (st : ServiceState) : ServiceState :=
  match msgAudioBytes msg with
  | some d =>
    if st.hasOutputCtx then
      scheduleAudioPlay ctx (((bytesToInt16LE (padEven d)).length : ℚ) / 24000) st
    else st
  | none => st

/-- Step 3 of `handleMessage` (lines 433-436). -/
def handleInterruption (ctx : ℚ) (msg : ServerMessage) (st : ServiceState) : ServiceState :=
  if msg.interrupted then { stopAudioOutput ctx st with responsePending := false } else st

/-- Step 4 of `handleMessage`, output side (lines 439-443). -/
def handleOutputDelta (msg : ServerMessage) (st : ServiceState) : ServiceState × List Event :=
  match msg.outputTranscription with
  | some t =>
    ({ st with currentOutputTranscription := st.currentOutputTranscription ++ t },
     [Event.transcript (st.currentOutputTranscription ++ t) Sender.ai false
       st.currentTurnLatency])
  | none => (st, [])

/-- Step 4 of `handleMessage`, input side (lines 444-447). -/
def handleInputDelta (msg : ServerMessage) (st : ServiceState) : ServiceState × List Event :=
  match msg.inputTranscription with
  | some t =>
    ({ st with currentInputTranscription := st.currentInputTranscription ++ t },
     [Event.transcript (st.currentInputTranscription ++ t) Sender.user false none])
  | none => (st, [])

/-- Step 5 of `handleMessage` (lines 449-467): on turn completion bump
the turn counter, record estimated output tokens, then finalize and
reset whichever accumulators are non-whitespace. -/
def handleTurnComplete (now : ℤ) (msg : ServerMessage) (st : ServiceState) :
    ServiceState × List Event :=
  if msg.turnComplete then
    let stA := { st with stats := { st.stats with modelTurns := st.stats.modelTurns + 1 } }
    let recB := recordTokenUsage now ((stA.currentOutputTranscription.length + 3) / 4) stA
    let recC :=
      if jsTrim recB.1.currentInputTranscription ≠ "" then
        ({ recB.1 with currentInputTranscription := "" },
         [Event.transcript recB.1.currentInputTranscription Sender.user true none])
      else (recB.1, ([] : List Event))
    let recD :=
      if jsTrim recC.1.currentOutputTranscription ≠ "" then
        ({ recC.1 with currentOutputTranscription := "", currentTurnLatency := none },
         [Event.transcript recC.1.currentOutputTranscription Sender.ai true
           recC.1.currentTurnLatency])
      else (recC.1, ([] : List Event))
    (recD.1, recB.2 ++ recC.2 ++ recD.2)
  else (st, [])

/-- `handleMessage` (part_001 lines 377-468), with `exec` the external
tool executors (`executeTool` catches handler exceptions internally and
always yields a result string). Returns the successor state and the
emitted effects, in program order. -/
def handleMessage (now : ℤ) (ctxTime : ℚ) (exec : FunctionCall → String)
    (msg : ServerMessage) (st0 : ServiceState) : ServiceState × List Event :=
  let st1 := trackInputActivity now msg st0
  let evs1 := handleToolCalls exec msg st1
  let r2 := handleAudioLatency now msg st1
  let st3 := handleAudioSchedule ctxTime msg r2.1
  let st4 := handleInterruption ctxTime msg st3
  let r5 := handleOutputDelta msg st4
  let r6 := handleInputDelta msg r5.1
  let r9 := handleTurnComplete now msg r6.1
  (r9.1, evs1 ++ r2.2 ++ r5.2 ++ r6.2 ++ r9.2)

/-- `sendVideoFrame` (part_001 lines 530-544): cache the frame, count
it, record its fixed token cost, and forward it when a session exists. -/
def sendVideoFrame (now : ℤ) (frame : String) (st : ServiceState) : ServiceState × List Event :=
  let st1 := { st with lastFrame := some frame,
                       stats := { st.stats with imagesSent := st.stats.imagesSent + 1 } }
  let rec2 := recordTokenUsage now 258 st1
  (rec2.1, rec2.2 ++ (if rec2.1.sessionActive then [Event.realtimeImage frame] else []))

/-- `notifyScreenStart` (part_001 lines 546-566). -/
def notifyScreenStart (now : ℤ) (st : ServiceState) : ServiceState × List Event :=
  let st1 := { st with isVideoStreamActive := true }
  if st1.sessionActive then
    let rec2 := recordTokenUsage now 15 st1
    (rec2.1,
     Event.clientText "I am now sharing my screen with you. Please look at the video feed." ::
       rec2.2)
  else (st1, [])

/-- `notifyVideoStateChange` (part_001 lines 568-577): track the intended
video state; on pause also drop the cached frame so the fallback path
cannot use a stale image. `sendSystemMessage` only sends when a session
exists. -/
def notifyVideoStateChange (isPaused : Bool) (st : ServiceState) : ServiceState × List Event :=
  if isPaused then
    ({ st with isVideoStreamActive := false, lastFrame := none },
     if st.sessionActive then
       [Event.clientText
         "[System Event: User has paused the video stream. You cannot see the screen right now.]"]
     else [])
  else
    ({ st with isVideoStreamActive := true },
     if st.sessionActive then
       [Event.clientText
         "[System Event: User has resumed the video stream. You can see the screen again.]"]
     else [])

/-- The "video active but no frame yet" hint of `sendTextMessage`
(part_001 line 635). -/
def waitingForVideoHint : String :=
  "[System: Video stream is active but no image frame has been received yet. If the user asks about the screen, tell them you are waiting for the video feed to sync.]"

/-- The "no screen shared" hint of `sendTextMessage` (part_001 line 636). -/
def noScreenHint : String :=
  "[System: No screen shared / Video Paused]"

/-- One content part of the fallback generation request. -/
inductive RequestPart
  | textPart (text : String)
  | imagePart (data : String)
deriving DecidableEq, Repr

/-- The `parts` construction of `sendTextMessage` (part_001 lines
622-638): attach the cached frame when present, otherwise prepend the
system hint chosen by the intended video state. -/
def buildFallbackParts (st : ServiceState) (text : String) : List RequestPart :=
  match st.lastFrame with
  | some f => [RequestPart.textPart text, RequestPart.imagePart f]
  | none =>
    let systemMsg := if st.isVideoStreamActive then waitingForVideoHint else noScreenHint
    [RequestPart.textPart (systemMsg ++ " " ++ text)]

/-- Latency captured at the first nonempty text chunk of the fallback
stream: chunk arrival time minus send start time. -/
def firstTokenLatency (startTime : ℤ) : List (ℤ × String) → Option ℤ
  | [] => none
  | (t, c) :: rest => if c = "" then firstTokenLatency startTime rest else some (t - startTime)

/-- The non-final transcript updates emitted while consuming the
fallback stream: each nonempty chunk re-emits the accumulated text. -/
def streamEvents (lat : Option ℤ) (acc : String) : List (ℤ × String) → List Event
  | [] => []
  | (_, c) :: rest =>
    if c = "" then streamEvents lat acc rest
    else Event.transcript (acc ++ c) Sender.ai false lat :: streamEvents lat (acc ++ c) rest

/-- `sendTextMessage` (part_001 lines 608-726) on the successful path,
with the stream's text chunks (arrival time, text) supplied as input.
Mid-stream tool calls only add system log entries and are not modelled;
text-to-speech is modelled by its effect on the synthesizer state.
Returns the new state, the emitted effects and the request parts. -/
def sendTextMessage (now : ℤ) (ctxTime : ℚ) (text : String) (chunks : List (ℤ × String))
    (st : ServiceState) : ServiceState × List Event × List RequestPart :=
  let st1 := stopAudioOutput ctxTime st
  let rec2 := recordTokenUsage now ((text.length + 3) / 4) st1
  let parts := buildFallbackParts rec2.1 text
  let rec3 := if rec2.1.lastFrame.isSome then recordTokenUsage now 258 rec2.1
    else (rec2.1, ([] : List Event))
  let fullText := String.join (chunks.map fun c => c.2)
  let lat := firstTokenLatency now chunks
  let evsStream := streamEvents lat "" chunks
  let st4 := if jsTrim (cleanTTS fullText) ≠ "" then { rec3.1 with synthPending := true }
    else rec3.1
  let finePart :=
    if fullText ≠ "" then
      let stA := { st4 with stats := { st4.stats with modelTurns := st4.stats.modelTurns + 1 } }
      let recB := recordTokenUsage now ((fullText.length + 3) / 4) stA
      (recB.1, Event.transcript fullText Sender.ai true lat :: recB.2)
    else (st4, ([] : List Event))
  (finePart.1,
   (Event.transcript text Sender.user true none :: rec2.2 ++ rec3.2 ++ evsStream ++ finePart.2,
    parts))

/-- `disconnect` (part_001 lines 752-816): clear the timers, remember
whether a session was active, null the session handle before closing it,
stop playback and synthesis, drop the frame cache and ledger, release
the audio graph, and notify the UI only when a session was active. -/
def disconnect (ctxTime : ℚ) (st : ServiceState) : ServiceState × List Event :=
  let st1 := { st with statsIntervalActive := false, volumeIntervalActive := false }
  let wasConnected := st1.sessionActive
  let st2 := { st1 with sessionActive := false }
  let st3 := stopAudioOutput ctxTime st2
  let st4 := { st3 with lastFrame := none, tokenHistory := [], isVideoStreamActive := true,
                        hasOutputCtx := false }
  (st4,
   Event.nullSession :: (if wasConnected then [Event.closeSession] else []) ++
     (if wasConnected then [Event.disconnected] else []))

/-- The state effects of a successful `connect` (part_001 lines
195-302) up to the session resolving: stats and ledger reset with a
snapshot notification, both timers installed, fresh output context with
the cursor at its clock, microphone and session acquired. -/
def connectReset (ctxTime : ℚ) (st : ServiceState) : ServiceState × List Event :=
  let st1 := { st with stats := ⟨0, 0, 0, 0⟩, tokenHistory := [],
                       statsIntervalActive := true, volumeIntervalActive := true,
                       hasOutputCtx := true, nextStartTime := ctxTime,
                       sessionActive := true }
  (st1, [Event.statsEv ⟨0, 0, 0, 0⟩, Event.connected])

/-- One tick of the stats interval installed by `connect` (part_001
lines 203-206): recompute the decayed stats. -/
def statsTick (now : ℤ) (st : ServiceState) : ServiceState × List Event :=
  if st.statsIntervalActive then updateStats now st else (st, [])

/-- The operations that drive the service state, each carrying its
external inputs. -/
inductive Op
  | connectOp (ctxTime : ℚ)
  | message (now : ℤ) (ctxTime : ℚ) (msg : ServerMessage)
  | videoFrame (now : ℤ) (frame : String)
  | screenStart (now : ℤ)
  | videoState (isPaused : Bool)
  | textMessage (now : ℤ) (ctxTime : ℚ) (text : String) (chunks : List (ℤ × String))
  | tick (now : ℤ)
  | disconnectOp (ctxTime : ℚ)

def stepOp (exec : FunctionCall → String) : Op → ServiceState → ServiceState × List Event
  | Op.connectOp c, st => connectReset c st
  | Op.message n c m, st => handleMessage n c exec m st
  | Op.videoFrame n f, st => sendVideoFrame n f st
  | Op.screenStart n, st => notifyScreenStart n st
  | Op.videoState p, st => notifyVideoStateChange p st
  | Op.textMessage n c t ch, st =>
      let r := sendTextMessage n c t ch st
      (r.1, r.2.1)
  | Op.tick n, st => statsTick n st
  | Op.disconnectOp c, st => disconnect c st

/-- Run a sequence of operations, collecting all emitted effects. -/
def runOps (exec : FunctionCall → String) : List Op → ServiceState → ServiceState × List Event
  | [], st => (st, [])
  | op :: rest, st =>
    let r1 := stepOp exec op st
    let r2 := runOps exec rest r1.1
    (r2.1, r1.2 ++ r2.2)

lemma stopAllSources_ok : ∀ sources : List SourceNode, stopAllSources sources = Except.ok ()
  | [] => rfl
  | s :: rest => by
    unfold stopAllSources stopSource
    split
    · exact stopAllSources_ok rest
    · exact stopAllSources_ok rest

/-- C4: after `stopAudioOutput` the pending playback buffer is empty,
the cursor equals the output clock at the moment of the call, the
per-source stop loop never raises (every failure is caught), and the
speech synthesizer is left neither speaking nor pending. -/
theorem C4_stop_audio_output (ctxTime : ℚ) (st : ServiceState) (h : st.hasOutputCtx = true) :
    (stopAudioOutput ctxTime st).audioSources = [] ∧
    (stopAudioOutput ctxTime st).nextStartTime = ctxTime ∧
    stopAllSources st.audioSources = Except.ok () ∧
    (stopAudioOutput ctxTime st).synthSpeaking = false ∧
    (stopAudioOutput ctxTime st).synthPending = false := by
  refine ⟨rfl, ?_, stopAllSources_ok st.audioSources, rfl, rfl⟩
  simp [stopAudioOutput, h]

theorem C4_stop_audio_output_witness :
    ({ initialState with hasOutputCtx := true, audioSources := [⟨true⟩, ⟨false⟩], synthSpeaking := true, nextStartTime := 7 } : ServiceState).hasOutputCtx = true ∧
    ((stopAudioOutput 2 { initialState with hasOutputCtx := true, audioSources := [⟨true⟩, ⟨false⟩], synthSpeaking := true, nextStartTime := 7 }).audioSources = [] ∧
     (stopAudioOutput 2 { initialState with hasOutputCtx := true, audioSources := [⟨true⟩, ⟨false⟩], synthSpeaking := true, nextStartTime := 7 }).nextStartTime = 2 ∧
     stopAllSources ({ initialState with hasOutputCtx := true, audioSources := [⟨true⟩, ⟨false⟩], synthSpeaking := true, nextStartTime := 7 } : ServiceState).audioSources = Except.ok () ∧
     (stopAudioOutput 2 { initialState with hasOutputCtx := true, audioSources := [⟨true⟩, ⟨false⟩], synthSpeaking := true, nextStartTime := 7 }).synthSpeaking = false ∧
     (stopAudioOutput 2 { initialState with hasOutputCtx := true, audioSources := [⟨true⟩, ⟨false⟩], synthSpeaking := true, nextStartTime := 7 }).synthPending = false) :=
  ⟨rfl, C4_stop_audio_output 2 _ rfl⟩

lemma scheduleAudioPlay_cursor_step (ctxTime dur : ℚ) (hdur : 0 ≤ dur) (st : ServiceState) :
    st.nextStartTime ≤ (scheduleAudioPlay ctxTime dur st).nextStartTime := by
  unfold scheduleAudioPlay
  split
  · dsimp only
    split
    · linarith
    · linarith
  · exact le_refl _

/-- C7: the playback cursor never regresses across any sequence of
`scheduleAudioPlay` calls (each with a nonnegative chunk duration and an
arbitrary output-clock reading), absent an interruption reset. -/
theorem C7_cursor_nondecreasing (calls : List (ℚ × ℚ)) (h : ∀ c ∈ calls, 0 ≤ c.2)
    (st : ServiceState) :
    st.nextStartTime ≤
      (calls.foldl (fun s c => scheduleAudioPlay c.1 c.2 s) st).nextStartTime := by
  induction calls generalizing st with
  | nil => exact le_refl _
  | cons c rest ih =>
    calc st.nextStartTime
        ≤ (scheduleAudioPlay c.1 c.2 st).nextStartTime :=
          scheduleAudioPlay_cursor_step c.1 c.2 (h c (List.mem_cons_self c rest)) st
      _ ≤ _ := ih (fun d hd => h d (List.mem_cons_of_mem c hd)) _

theorem C7_cursor_nondecreasing_witness :
    (∀ c ∈ [((0 : ℚ), (1 : ℚ)/2), ((3 : ℚ), (1 : ℚ)/4)], 0 ≤ c.2) ∧
    initialState.nextStartTime ≤
      (([((0 : ℚ), (1 : ℚ)/2), ((3 : ℚ), (1 : ℚ)/4)]).foldl
        (fun s c => scheduleAudioPlay c.1 c.2 s) initialState).nextStartTime :=
  ⟨by norm_num, C7_cursor_nondecreasing [((0 : ℚ), (1 : ℚ)/2), ((3 : ℚ), (1 : ℚ)/4)]
    (by norm_num) initialState⟩

/-- Count of `onDisconnect` notifications in an effect list. -/
def countDisconnects (evs : List Event) : ℕ :=
  (evs.filter fun e => decide (e = Event.disconnected)).length

/-- C5: `disconnect` notifies at most once across two consecutive calls:
the notification fires exactly when a session handle was non-null at
entry, the handle is nulled by the first call (and, in the trace, nulled
before the close), so the second call never notifies. -/
theorem C5_disconnect_idempotent (c1 c2 : ℚ) (st : ServiceState) :
    countDisconnects ((disconnect c1 st).2 ++ (disconnect c2 (disconnect c1 st).1).2) ≤ 1 ∧
    (countDisconnects (disconnect c1 st).2 = 1 ↔ st.sessionActive = true) ∧
    (disconnect c1 st).1.sessionActive = false ∧
    countDisconnects (disconnect c2 (disconnect c1 st).1).2 = 0 ∧
    (st.sessionActive = true →
      (disconnect c1 st).2 = [Event.nullSession, Event.closeSession, Event.disconnected]) ∧
    (st.sessionActive = false → (disconnect c1 st).2 = [Event.nullSession]) := by
  cases hs : st.sessionActive <;>
    simp [disconnect, countDisconnects, stopAudioOutput, hs]

theorem C5_disconnect_idempotent_witness :
    (countDisconnects ((disconnect 1 { initialState with sessionActive := true }).2 ++
        (disconnect 2 (disconnect 1 { initialState with sessionActive := true }).1).2) ≤ 1 ∧
      (countDisconnects (disconnect 1 { initialState with sessionActive := true }).2 = 1 ↔
        ({ initialState with sessionActive := true } : ServiceState).sessionActive = true) ∧
      (disconnect 1 { initialState with sessionActive := true }).1.sessionActive = false ∧
      countDisconnects
        (disconnect 2 (disconnect 1 { initialState with sessionActive := true }).1).2 = 0 ∧
      (({ initialState with sessionActive := true } : ServiceState).sessionActive = true →
        (disconnect 1 { initialState with sessionActive := true }).2 =
          [Event.nullSession, Event.closeSession, Event.disconnected]) ∧
      (({ initialState with sessionActive := true } : ServiceState).sessionActive = false →
        (disconnect 1 { initialState with sessionActive := true }).2 = [Event.nullSession])) :=
  C5_disconnect_idempotent 1 2 { initialState with sessionActive := true }

/-- The two kinds of events that touch the token ledger: a token usage
record (`recordTokenUsage`) and a stats-interval tick (`updateStats`),
each at its `Date.now()` reading. -/
inductive LedgerOp
  | record (time : ℤ) (count : ℕ)
  | tick (time : ℤ)
deriving DecidableEq, Repr

def opTime : LedgerOp → ℤ
  | LedgerOp.record t _ => t
  | LedgerOp.tick t => t

/-- The ledger entries contributed by a sequence of ledger events. -/
def ledgerEntries : List LedgerOp → List (ℤ × ℕ)
  | [] => []
  | LedgerOp.record t c :: rest => (t, c) :: ledgerEntries rest
  | LedgerOp.tick _ :: rest => ledgerEntries rest

def ledgerStep : LedgerOp → ServiceState → ServiceState
  | LedgerOp.record t c, st => (recordTokenUsage t c st).1
  | LedgerOp.tick t, st => (updateStats t st).1

def ledgerRun (ops : List LedgerOp) (st : ServiceState) : ServiceState :=
  ops.foldl (fun s o => ledgerStep o s) st

/-- The `Date.now()` reading of the last ledger event (the query time). -/
def lastOpTime : List LedgerOp → ℤ
  | [] => 0
  | [op] => opTime op
  | _ :: rest => lastOpTime rest

lemma lastOpTime_cons (op : LedgerOp) (rest : List LedgerOp) (h : rest ≠ []) :
    lastOpTime (op :: rest) = lastOpTime rest := by
  cases rest with
  | nil => exact absurd rfl h
  | cons b r => rfl

lemma lastOpTime_mem : ∀ (ops : List LedgerOp), ops ≠ [] →
    lastOpTime ops ∈ ops.map opTime
  | [op], _ => by simp [lastOpTime]
  | op :: b :: r, _ => by
    rw [lastOpTime_cons op (b :: r) (List.cons_ne_nil b r)]
    exact List.mem_cons_of_mem _ (lastOpTime_mem (b :: r) (List.cons_ne_nil b r))

lemma filter_absorb (A : List (ℤ × ℕ)) (q0 q : ℤ) (h : q0 ≤ q) :
    (A.filter fun e => decide (e.1 > q0 - 60000)).filter (fun e => decide (e.1 > q - 60000)) =
      A.filter (fun e => decide (e.1 > q - 60000)) := by
  rw [List.filter_filter]
  apply List.filter_congr
  intro a _
  by_cases ha : a.1 > q - 60000
  · have ha0 : a.1 > q0 - 60000 := by omega
    simp [ha, ha0]
  · simp [ha]

lemma ledgerStep_spec (op : LedgerOp) (st : ServiceState) :
    (ledgerStep op st).tokenHistory =
      (st.tokenHistory ++ ledgerEntries [op]).filter (fun e => decide (e.1 > opTime op - 60000)) ∧
    (ledgerStep op st).stats.tokensPerMinute =
      ((ledgerStep op st).tokenHistory.map (fun e => e.2)).sum := by
  cases op <;>
    simp [ledgerStep, ledgerEntries, opTime, recordTokenUsage, updateStats]

lemma ledgerRun_spec : ∀ (ops : List LedgerOp) (st : ServiceState), ops ≠ [] →
    List.Pairwise (· ≤ ·) (ops.map opTime) →
    (ledgerRun ops st).tokenHistory =
      (st.tokenHistory ++ ledgerEntries ops).filter
        (fun e => decide (e.1 > lastOpTime ops - 60000)) ∧
    (ledgerRun ops st).stats.tokensPerMinute =
      ((ledgerRun ops st).tokenHistory.map (fun e => e.2)).sum
  | [], _, hne, _ => absurd rfl hne
  | [op], st, _, _ => by
    have h := ledgerStep_spec op st
    exact ⟨h.1, h.2⟩
  | op :: b :: r, st, _, hmono => by
    have hne2 : (b :: r : List LedgerOp) ≠ [] := List.cons_ne_nil b r
    have hstep := ledgerStep_spec op st
    have hmono2 : List.Pairwise (· ≤ ·) ((b :: r).map opTime) := by
      rw [List.map_cons] at hmono
      exact (List.pairwise_cons.mp hmono).2
    have hle : opTime op ≤ lastOpTime (b :: r) := by
      rw [List.map_cons] at hmono
      exact (List.pairwise_cons.mp hmono).1 _ (lastOpTime_mem (b :: r) hne2)
    have ih := ledgerRun_spec (b :: r) (ledgerStep op st) hne2 hmono2
    have hrun : ledgerRun (op :: b :: r) st = ledgerRun (b :: r) (ledgerStep op st) := rfl
    rw [hrun, lastOpTime_cons op (b :: r) hne2]
    refine ⟨?_, ih.2⟩
    rw [ih.1, hstep.1, List.filter_append, filter_absorb _ _ _ hle,
      ← List.filter_append, List.append_assoc]
    have hent : ledgerEntries [op] ++ ledgerEntries (b :: r) = ledgerEntries (op :: b :: r) := by
      cases op <;> simp [ledgerEntries]
    rw [hent]

/-- C6: for any nonempty sequence of token-usage records and timer
ticks with non-decreasing clock readings, the `tokensPerMinute` computed
at the final event's time `q` is the sum of the counts of exactly those
ledger entries (pre-existing or added) with `q - timestamp < 60000`,
and a record is by definition a push followed by the same recomputation
a timer tick performs. -/
theorem C6_token_ledger (ops : List LedgerOp) (st : ServiceState)
    (hne : ops ≠ []) (hmono : List.Pairwise (· ≤ ·) (ops.map opTime)) :
    (ledgerRun ops st).stats.tokensPerMinute =
      (((st.tokenHistory ++ ledgerEntries ops).filter
          (fun e => decide (lastOpTime ops - e.1 < 60000))).map (fun e => e.2)).sum ∧
    (∀ (now : ℤ) (c : ℕ) (s : ServiceState),
      recordTokenUsage now c s =
        updateStats now { s with tokenHistory := s.tokenHistory ++ [(now, c)] }) := by
  refine ⟨?_, fun _ _ _ => rfl⟩
  obtain ⟨h1, h2⟩ := ledgerRun_spec ops st hne hmono
  have hfilters : (st.tokenHistory ++ ledgerEntries ops).filter
        (fun e => decide (e.1 > lastOpTime ops - 60000)) =
      (st.tokenHistory ++ ledgerEntries ops).filter
        (fun e => decide (lastOpTime ops - e.1 < 60000)) := by
    apply List.filter_congr
    intro a _
    by_cases ha : a.1 > lastOpTime ops - 60000
    · simp [ha, show lastOpTime ops - a.1 < 60000 by omega]
    · simp [ha, show ¬(lastOpTime ops - a.1 < 60000) by omega]
  rw [h2, h1, hfilters]

theorem C6_token_ledger_witness :
    (([LedgerOp.record 100 5, LedgerOp.record 59000 7, LedgerOp.tick 61000] : List LedgerOp) ≠ [] ∧
     List.Pairwise (· ≤ ·)
       (([LedgerOp.record 100 5, LedgerOp.record 59000 7, LedgerOp.tick 61000] : List LedgerOp).map opTime)) ∧
    ((ledgerRun [LedgerOp.record 100 5, LedgerOp.record 59000 7, LedgerOp.tick 61000] initialState).stats.tokensPerMinute =
      (((initialState.tokenHistory ++
          ledgerEntries [LedgerOp.record 100 5, LedgerOp.record 59000 7, LedgerOp.tick 61000]).filter
          (fun e => decide (lastOpTime [LedgerOp.record 100 5, LedgerOp.record 59000 7, LedgerOp.tick 61000] - e.1 < 60000))).map
          (fun e => e.2)).sum ∧
     (∀ (now : ℤ) (c : ℕ) (s : ServiceState),
       recordTokenUsage now c s =
         updateStats now { s with tokenHistory := s.tokenHistory ++ [(now, c)] })) :=
  ⟨⟨List.cons_ne_nil _ _, by decide⟩,
   C6_token_ledger [LedgerOp.record 100 5, LedgerOp.record 59000 7, LedgerOp.tick 61000]
     initialState (List.cons_ne_nil _ _) (by decide)⟩

lemma buildFallbackParts_eq_of (st1 st2 : ServiceState) (text : String)
    (h1 : st1.lastFrame = st2.lastFrame)
    (h2 : st1.isVideoStreamActive = st2.isVideoStreamActive) :
    buildFallbackParts st1 text = buildFallbackParts st2 text := by
  unfold buildFallbackParts
  rw [h1, h2]

/-- The request parts of `sendTextMessage` are built from the state as
it was on entry: the preceding playback stop and token recording touch
neither the frame cache nor the intended video state. -/
lemma sendTextMessage_parts (now : ℤ) (ctxTime : ℚ) (text : String)
    (chunks : List (ℤ × String)) (st : ServiceState) :
    (sendTextMessage now ctxTime text chunks st).2.2 = buildFallbackParts st text := by
  unfold sendTextMessage
  dsimp only
  exact buildFallbackParts_eq_of _ _ text
    (by simp [recordTokenUsage, updateStats, stopAudioOutput])
    (by simp [recordTokenUsage, updateStats, stopAudioOutput])

/-- C8: with no cached frame, the outbound fallback request text is the
user text prefixed by exactly one of the two system hints, selected by
the intended video state: the waiting-for-sync hint while the stream is
considered active (in particular for `sendTextMessage("ping")` when
video never started), and the no-screen hint after a pause (which also
clears the frame cache). -/
theorem C8_text_hint (now : ℤ) (ctxTime : ℚ) (text : String)
    (chunks : List (ℤ × String)) (st : ServiceState) :
    (st.lastFrame = none →
      (sendTextMessage now ctxTime text chunks st).2.2 =
        [RequestPart.textPart
          ((if st.isVideoStreamActive then waitingForVideoHint else noScreenHint) ++
            " " ++ text)]) ∧
    ((notifyVideoStateChange true st).1.lastFrame = none ∧
     (notifyVideoStateChange true st).1.isVideoStreamActive = false) ∧
    ((sendTextMessage now ctxTime text chunks (notifyVideoStateChange true st).1).2.2 =
      [RequestPart.textPart (noScreenHint ++ " " ++ text)]) ∧
    ((sendTextMessage now ctxTime "ping" chunks initialState).2.2 =
      [RequestPart.textPart (waitingForVideoHint ++ " " ++ "ping")]) := by
  refine ⟨?_, ?_, ?_, ?_⟩
  · intro h
    rw [sendTextMessage_parts]
    unfold buildFallbackParts
    rw [h]
  · constructor <;> simp [notifyVideoStateChange]
  · rw [sendTextMessage_parts]
    unfold buildFallbackParts
    simp [notifyVideoStateChange]
  · rw [sendTextMessage_parts]
    unfold buildFallbackParts
    simp [initialState]

theorem C8_text_hint_witness :
    ((initialState.lastFrame = none →
      (sendTextMessage 5 0 "hello" [] initialState).2.2 =
        [RequestPart.textPart
          ((if initialState.isVideoStreamActive then waitingForVideoHint else noScreenHint) ++
            " " ++ "hello")]) ∧
    ((notifyVideoStateChange true initialState).1.lastFrame = none ∧
     (notifyVideoStateChange true initialState).1.isVideoStreamActive = false) ∧
    ((sendTextMessage 5 0 "hello" [] (notifyVideoStateChange true initialState).1).2.2 =
      [RequestPart.textPart (noScreenHint ++ " " ++ "hello")]) ∧
    ((sendTextMessage 5 0 "ping" [] initialState).2.2 =
      [RequestPart.textPart (waitingForVideoHint ++ " " ++ "ping")])) :=
  C8_text_hint 5 0 "hello" [] initialState

/-- A message carrying only an output-transcription delta. -/
def outDeltaMsg (t : String) : ServerMessage := ⟨none, none, false, none, some t, false⟩

/-- A message carrying only the turn-complete flag. -/
def turnCompleteMsg : ServerMessage := ⟨none, none, false, none, none, true⟩

/-- The concatenation of a list of text deltas in arrival order. -/
def concatAll : List String → String
  | [] => ""
  | s :: rest => s ++ concatAll rest

lemma handleMessage_outDelta (now : ℤ) (ctx : ℚ) (exec : FunctionCall → String)
    (t : String) (st : ServiceState) :
    handleMessage now ctx exec (outDeltaMsg t) st =
      ({ st with currentOutputTranscription := st.currentOutputTranscription ++ t },
       [Event.transcript (st.currentOutputTranscription ++ t) Sender.ai false
         st.currentTurnLatency]) := by
  simp [handleMessage, trackInputActivity, handleToolCalls, handleAudioLatency,
      handleAudioSchedule, handleInterruption, handleOutputDelta, handleInputDelta,
      handleTurnComplete, outDeltaMsg, msgAudioBytes]

lemma recordTokenUsage_transcripts (now : ℤ) (c : ℕ) (st : ServiceState) :
    (recordTokenUsage now c st).1.currentInputTranscription = st.currentInputTranscription ∧
    (recordTokenUsage now c st).1.currentOutputTranscription = st.currentOutputTranscription ∧
    (recordTokenUsage now c st).1.currentTurnLatency = st.currentTurnLatency ∧
    ∀ t sender fin rt, Event.transcript t sender fin rt ∉ (recordTokenUsage now c st).2 := by
  refine ⟨rfl, rfl, rfl, ?_⟩
  intro t sender fin rt hmem
  simp [recordTokenUsage, updateStats] at hmem

lemma handleMessage_turnComplete_final_out (now : ℤ) (ctx : ℚ)
    (exec : FunctionCall → String) (st : ServiceState)
    (hout : jsTrim st.currentOutputTranscription ≠ "") :
    Event.transcript st.currentOutputTranscription Sender.ai true st.currentTurnLatency ∈
      (handleMessage now ctx exec turnCompleteMsg st).2 ∧
    (handleMessage now ctx exec turnCompleteMsg st).1.currentOutputTranscription = "" := by
  by_cases hin : jsTrim st.currentInputTranscription ≠ "" <;>
    simp [handleMessage, trackInputActivity, handleToolCalls, handleAudioLatency,
      handleAudioSchedule, handleInterruption, handleOutputDelta, handleInputDelta,
      handleTurnComplete, turnCompleteMsg, msgAudioBytes, recordTokenUsage, updateStats,
      hout, hin]

lemma handleMessage_turnComplete_nofinal_out (now : ℤ) (ctx : ℚ)
    (exec : FunctionCall → String) (st : ServiceState)
    (hout : jsTrim st.currentOutputTranscription = "") :
    (handleMessage now ctx exec turnCompleteMsg st).1.currentOutputTranscription =
      st.currentOutputTranscription ∧
    ∀ t rt, Event.transcript t Sender.ai true rt ∉
      (handleMessage now ctx exec turnCompleteMsg st).2 := by
  by_cases hin : jsTrim st.currentInputTranscription ≠ "" <;>
    simp [handleMessage, trackInputActivity, handleToolCalls, handleAudioLatency,
      handleAudioSchedule, handleInterruption, handleOutputDelta, handleInputDelta,
      handleTurnComplete, turnCompleteMsg, msgAudioBytes, recordTokenUsage, updateStats,
      hout, hin]

lemma handleMessage_turnComplete_final_in (now : ℤ) (ctx : ℚ)
    (exec : FunctionCall → String) (st : ServiceState)
    (hin : jsTrim st.currentInputTranscription ≠ "") :
    Event.transcript st.currentInputTranscription Sender.user true none ∈
      (handleMessage now ctx exec turnCompleteMsg st).2 ∧
    (handleMessage now ctx exec turnCompleteMsg st).1.currentInputTranscription = "" := by
  by_cases hout : jsTrim st.currentOutputTranscription ≠ "" <;>
    simp [handleMessage, trackInputActivity, handleToolCalls, handleAudioLatency,
      handleAudioSchedule, handleInterruption, handleOutputDelta, handleInputDelta,
      handleTurnComplete, turnCompleteMsg, msgAudioBytes, recordTokenUsage, updateStats,
      hout, hin]

lemma runOps_nil (exec : FunctionCall → String) (st : ServiceState) :
    runOps exec [] st = (st, []) := rfl

lemma runOps_cons (exec : FunctionCall → String) (op : Op) (ops : List Op)
    (st : ServiceState) :
    runOps exec (op :: ops) st =
      ((runOps exec ops (stepOp exec op st).1).1,
       (stepOp exec op st).2 ++ (runOps exec ops (stepOp exec op st).1).2) := rfl

lemma runOps_append (exec : FunctionCall → String) (ops1 ops2 : List Op)
    (st : ServiceState) :
    runOps exec (ops1 ++ ops2) st =
      ((runOps exec ops2 (runOps exec ops1 st).1).1,
       (runOps exec ops1 st).2 ++ (runOps exec ops2 (runOps exec ops1 st).1).2) := by
  induction ops1 generalizing st with
  | nil => simp [runOps_nil]
  | cons op rest ih =>
    simp only [List.cons_append, runOps_cons, ih, List.append_assoc]

/-- Folding a list of output-delta messages appends their concatenation
to the output accumulator, changes nothing else, and emits only
non-final updates. -/
lemma runOps_outDeltas (exec : FunctionCall → String) (deltas : List String)
    (st : ServiceState) :
    (runOps exec (deltas.map fun t => Op.message 0 0 (outDeltaMsg t)) st).1 =
      { st with currentOutputTranscription :=
          st.currentOutputTranscription ++ concatAll deltas } ∧
    ∀ t rt, Event.transcript t Sender.ai true rt ∉
      (runOps exec (deltas.map fun t => Op.message 0 0 (outDeltaMsg t)) st).2 := by
  induction deltas generalizing st with
  | nil =>
    refine ⟨?_, by simp [runOps_nil]⟩
    simp [runOps_nil, concatAll]
  | cons d rest ih =>
    rw [List.map_cons, runOps_cons]
    have hstep : stepOp exec (Op.message 0 0 (outDeltaMsg d)) st =
        ({ st with currentOutputTranscription := st.currentOutputTranscription ++ d },
         [Event.transcript (st.currentOutputTranscription ++ d) Sender.ai false
           st.currentTurnLatency]) := handleMessage_outDelta 0 0 exec d st
    rw [hstep]
    obtain ⟨ih1, ih2⟩ := ih { st with currentOutputTranscription :=
      st.currentOutputTranscription ++ d }
    refine ⟨?_, ?_⟩
    · rw [ih1]
      simp [concatAll, String.append_assoc]
    · intro t rt hmem
      simp only [List.mem_append, List.mem_singleton] at hmem
      rcases hmem with h | h
      · cases h
      · exact ih2 t rt h

lemma string_empty_append (s : String) : "" ++ s = s := rfl

lemma runOps_single (exec : FunctionCall → String) (op : Op) (st : ServiceState) :
    runOps exec [op] st = stepOp exec op st := by
  rw [runOps_cons, runOps_nil]
  simp

set_option maxHeartbeats 2000000 in
/-- C2 (amended): for a sequence of output-transcription deltas followed
by turn-complete, starting with an empty output accumulator: when the
concatenated deltas have non-whitespace content, exactly the
concatenation is finalized for the ai sender and the accumulator is
empty afterwards; a whitespace-only (in particular non-empty)
accumulator is neither finalized nor reset — finalization requires the
TRIMMED accumulator to be non-empty, not mere non-emptiness. The input
accumulator behaves likewise at turn-complete. -/
theorem C2_transcript_accumulation (exec : FunctionCall → String) (deltas : List String)
    (q : ℤ) (st : ServiceState) (hout0 : st.currentOutputTranscription = "") :
    (jsTrim (concatAll deltas) ≠ "" →
      Event.transcript (concatAll deltas) Sender.ai true st.currentTurnLatency ∈
        (runOps exec ((deltas.map fun t => Op.message 0 0 (outDeltaMsg t)) ++
          [Op.message q 0 turnCompleteMsg]) st).2 ∧
      (runOps exec ((deltas.map fun t => Op.message 0 0 (outDeltaMsg t)) ++
          [Op.message q 0 turnCompleteMsg]) st).1.currentOutputTranscription = "") ∧
    (jsTrim (concatAll deltas) = "" →
      (∀ t rt, Event.transcript t Sender.ai true rt ∉
        (runOps exec ((deltas.map fun t => Op.message 0 0 (outDeltaMsg t)) ++
          [Op.message q 0 turnCompleteMsg]) st).2) ∧
      (runOps exec ((deltas.map fun t => Op.message 0 0 (outDeltaMsg t)) ++
          [Op.message q 0 turnCompleteMsg]) st).1.currentOutputTranscription =
        concatAll deltas) ∧
    (∀ st2 : ServiceState, jsTrim st2.currentInputTranscription ≠ "" →
      Event.transcript st2.currentInputTranscription Sender.user true none ∈
        (handleMessage q 0 exec turnCompleteMsg st2).2 ∧
      (handleMessage q 0 exec turnCompleteMsg st2).1.currentInputTranscription = "") := by
  have hmid := runOps_outDeltas exec deltas st
  have hst1 : (runOps exec (deltas.map fun t => Op.message 0 0 (outDeltaMsg t)) st).1 =
      { st with currentOutputTranscription := concatAll deltas } := by
    rw [hmid.1, hout0, string_empty_append]
  have happ := runOps_append exec (deltas.map fun t => Op.message 0 0 (outDeltaMsg t))
    [Op.message q 0 turnCompleteMsg] st
  have hstep2 : ∀ s : ServiceState,
      stepOp exec (Op.message q 0 turnCompleteMsg) s = handleMessage q 0 exec turnCompleteMsg s :=
    fun s => rfl
  rw [happ, runOps_single, hstep2, hst1]
  refine ⟨?_, ?_, ?_⟩
  · intro h
    have hfin := handleMessage_turnComplete_final_out q 0 exec
      { st with currentOutputTranscription := concatAll deltas } (by simpa using h)
    exact ⟨List.mem_append_right _ hfin.1, hfin.2⟩
  · intro h
    have hno := handleMessage_turnComplete_nofinal_out q 0 exec
      { st with currentOutputTranscription := concatAll deltas } (by simpa using h)
    refine ⟨?_, hno.1⟩
    intro t rt hmem
    rcases List.mem_append.mp hmem with hm | hm
    · exact hmid.2 t rt hm
    · exact hno.2 t rt hm
  · intro st2 hin
    exact handleMessage_turnComplete_final_in q 0 exec st2 hin

theorem C2_transcript_accumulation_witness :
    initialState.currentOutputTranscription = "" ∧
    ((jsTrim (concatAll ["Hel", "lo"]) ≠ "" →
      Event.transcript (concatAll ["Hel", "lo"]) Sender.ai true
          initialState.currentTurnLatency ∈
        (runOps (fun _ => "") ((["Hel", "lo"].map fun t => Op.message 0 0 (outDeltaMsg t)) ++
          [Op.message 3 0 turnCompleteMsg]) initialState).2 ∧
      (runOps (fun _ => "") ((["Hel", "lo"].map fun t => Op.message 0 0 (outDeltaMsg t)) ++
          [Op.message 3 0 turnCompleteMsg]) initialState).1.currentOutputTranscription = "") ∧
    (jsTrim (concatAll ["Hel", "lo"]) = "" →
      (∀ t rt, Event.transcript t Sender.ai true rt ∉
        (runOps (fun _ => "") ((["Hel", "lo"].map fun t => Op.message 0 0 (outDeltaMsg t)) ++
          [Op.message 3 0 turnCompleteMsg]) initialState).2) ∧
      (runOps (fun _ => "") ((["Hel", "lo"].map fun t => Op.message 0 0 (outDeltaMsg t)) ++
          [Op.message 3 0 turnCompleteMsg]) initialState).1.currentOutputTranscription =
        concatAll ["Hel", "lo"]) ∧
    (∀ st2 : ServiceState, jsTrim st2.currentInputTranscription ≠ "" →
      Event.transcript st2.currentInputTranscription Sender.user true none ∈
        (handleMessage 3 0 (fun _ => "") turnCompleteMsg st2).2 ∧
      (handleMessage 3 0 (fun _ => "") turnCompleteMsg st2).1.currentInputTranscription = "")) :=
  ⟨rfl, C2_transcript_accumulation (fun _ => "") ["Hel", "lo"] 3 initialState rfl⟩

/-- C2: claim as stated is FALSE. A single output delta consisting of
one space followed by turn-complete leaves the accumulator non-empty
(" ") at turn-complete, yet no finalized ai log message is emitted and
the accumulator is not reset: the code finalizes only when the TRIMMED
accumulator is non-empty. The full effect trace shows only the
non-final update and the stats snapshot of the turn counter. -/
theorem C2_counterexample :
    (runOps (fun _ => "") [Op.message 0 0 (outDeltaMsg " "), Op.message 1 0 turnCompleteMsg]
        initialState).1.currentOutputTranscription = " " ∧
    (" " : String) ≠ "" ∧
    (runOps (fun _ => "") [Op.message 0 0 (outDeltaMsg " "), Op.message 1 0 turnCompleteMsg]
        initialState).2 =
      [Event.transcript " " Sender.ai false none, Event.statsEv ⟨0, 1, 0, 1⟩] := by
  refine ⟨by decide, by decide, by decide⟩

lemma trackInputActivity_stats (now : ℤ) (msg : ServerMessage) (st : ServiceState) :
    (trackInputActivity now msg st).stats = st.stats := by
  unfold trackInputActivity
  split_ifs <;> rfl

lemma handleAudioLatency_stats (now : ℤ) (msg : ServerMessage) (st : ServiceState) :
    (handleAudioLatency now msg st).1.stats = st.stats ∧
    ∀ u, Event.statsEv u ∉ (handleAudioLatency now msg st).2 := by
  unfold handleAudioLatency
  split_ifs <;> simp

lemma scheduleAudioPlay_stats (c d : ℚ) (st : ServiceState) :
    (scheduleAudioPlay c d st).stats = st.stats := by
  unfold scheduleAudioPlay
  split_ifs <;> rfl

lemma handleAudioSchedule_stats (c : ℚ) (msg : ServerMessage) (st : ServiceState) :
    (handleAudioSchedule c msg st).stats = st.stats := by
  unfold handleAudioSchedule
  split
  · split_ifs
    · exact scheduleAudioPlay_stats _ _ _
    · rfl
  · rfl

lemma handleInterruption_stats (c : ℚ) (msg : ServerMessage) (st : ServiceState) :
    (handleInterruption c msg st).stats = st.stats := by
  unfold handleInterruption
  split_ifs <;> rfl

lemma handleOutputDelta_stats (msg : ServerMessage) (st : ServiceState) :
    (handleOutputDelta msg st).1.stats = st.stats ∧
    ∀ u, Event.statsEv u ∉ (handleOutputDelta msg st).2 := by
  cases hmo : msg.outputTranscription <;> simp [handleOutputDelta, hmo]

lemma handleInputDelta_stats (msg : ServerMessage) (st : ServiceState) :
    (handleInputDelta msg st).1.stats = st.stats ∧
    ∀ u, Event.statsEv u ∉ (handleInputDelta msg st).2 := by
  cases hmi : msg.inputTranscription <;> simp [handleInputDelta, hmi]

lemma handleToolCalls_no_stats (exec : FunctionCall → String) (msg : ServerMessage)
    (st : ServiceState) : ∀ u, Event.statsEv u ∉ handleToolCalls exec msg st := by
  intro u hu
  simp only [handleToolCalls] at hu
  rcases List.mem_append.mp hu with h | h
  · simp at h
  · by_cases hc : st.sessionActive ∧
        ((msg.toolCall.getD []).map fun fc => (fc.id, fc.name, exec fc)) ≠ []
    · rw [if_pos hc] at h
      simp at h
    · rw [if_neg hc] at h
      simp at h

lemma handleTurnComplete_est (now : ℤ) (msg : ServerMessage) (st : ServiceState) :
    (handleTurnComplete now msg st).1.stats.estimatedTokens = st.stats.estimatedTokens ∧
    ∀ u, Event.statsEv u ∈ (handleTurnComplete now msg st).2 →
      u.estimatedTokens = st.stats.estimatedTokens := by
  simp only [handleTurnComplete]
  split_ifs <;>
    refine ⟨rfl, fun u hu => ?_⟩ <;>
    simp [recordTokenUsage, updateStats] at hu <;>
    simp [hu]

lemma handleMessage_est (now : ℤ) (ctx : ℚ) (exec : FunctionCall → String)
    (msg : ServerMessage) (st : ServiceState) :
    (handleMessage now ctx exec msg st).1.stats.estimatedTokens = st.stats.estimatedTokens ∧
    ∀ u, Event.statsEv u ∈ (handleMessage now ctx exec msg st).2 →
      u.estimatedTokens = st.stats.estimatedTokens := by
  have e1 := trackInputActivity_stats now msg st
  have e2 := handleAudioLatency_stats now msg (trackInputActivity now msg st)
  have e3 := handleAudioSchedule_stats ctx msg
    (handleAudioLatency now msg (trackInputActivity now msg st)).1
  have e4 := handleInterruption_stats ctx msg
    (handleAudioSchedule ctx msg (handleAudioLatency now msg (trackInputActivity now msg st)).1)
  have e5 := handleOutputDelta_stats msg
    (handleInterruption ctx msg
      (handleAudioSchedule ctx msg
        (handleAudioLatency now msg (trackInputActivity now msg st)).1))
  have e6 := handleInputDelta_stats msg
    (handleOutputDelta msg
      (handleInterruption ctx msg
        (handleAudioSchedule ctx msg
          (handleAudioLatency now msg (trackInputActivity now msg st)).1))).1
  have e9 := handleTurnComplete_est now msg
    (handleInputDelta msg
      (handleOutputDelta msg
        (handleInterruption ctx msg
          (handleAudioSchedule ctx msg
            (handleAudioLatency now msg (trackInputActivity now msg st)).1))).1).1
  have echain : ((handleInputDelta msg
      (handleOutputDelta msg
        (handleInterruption ctx msg
          (handleAudioSchedule ctx msg
            (handleAudioLatency now msg (trackInputActivity now msg st)).1))).1).1).stats =
      st.stats := by
    rw [e6.1, e5.1, e4, e3, e2.1, e1]
  constructor
  · show (handleTurnComplete now msg _).1.stats.estimatedTokens = st.stats.estimatedTokens
    rw [e9.1, echain]
  · intro u hu
    have hu2 : Event.statsEv u ∈
        handleToolCalls exec msg (trackInputActivity now msg st) ++
        (handleAudioLatency now msg (trackInputActivity now msg st)).2 ++
        (handleOutputDelta msg
          (handleInterruption ctx msg
            (handleAudioSchedule ctx msg
              (handleAudioLatency now msg (trackInputActivity now msg st)).1))).2 ++
        (handleInputDelta msg
          (handleOutputDelta msg
            (handleInterruption ctx msg
              (handleAudioSchedule ctx msg
                (handleAudioLatency now msg (trackInputActivity now msg st)).1))).1).2 ++
        (handleTurnComplete now msg
          (handleInputDelta msg
            (handleOutputDelta msg
              (handleInterruption ctx msg
                (handleAudioSchedule ctx msg
                  (handleAudioLatency now msg (trackInputActivity now msg st)).1))).1).1).2 := hu
    rcases List.mem_append.mp hu2 with h4 | h9
    rcases List.mem_append.mp h4 with h3 | h6
    rcases List.mem_append.mp h3 with h2 | h5
    rcases List.mem_append.mp h2 with h0 | h1
    · exact absurd h0 (handleToolCalls_no_stats exec msg _ u)
    · exact absurd h1 (e2.2 u)
    · exact absurd h5 (e5.2 u)
    · exact absurd h6 (e6.2 u)
    · have := e9.2 u h9
      rw [echain] at this
      exact this

lemma updateStats_est (now : ℤ) (st : ServiceState) :
    (updateStats now st).1.stats.estimatedTokens = st.stats.estimatedTokens ∧
    ∀ u, Event.statsEv u ∈ (updateStats now st).2 →
      u.estimatedTokens = st.stats.estimatedTokens := by
  refine ⟨rfl, fun u hu => ?_⟩
  simp [updateStats] at hu
  simp [hu]

lemma recordTokenUsage_est (now : ℤ) (c : ℕ) (st : ServiceState) :
    (recordTokenUsage now c st).1.stats.estimatedTokens = st.stats.estimatedTokens ∧
    ∀ u, Event.statsEv u ∈ (recordTokenUsage now c st).2 →
      u.estimatedTokens = st.stats.estimatedTokens :=
  updateStats_est now { st with tokenHistory := st.tokenHistory ++ [(now, c)] }

lemma statsEv_not_mem_streamEvents (lat : Option ℤ) (u : UsageStats) :
    ∀ (chunks : List (ℤ × String)) (acc : String),
      Event.statsEv u ∉ streamEvents lat acc chunks
  | [], _ => by simp [streamEvents]
  | (t, c) :: rest, acc => by
    simp only [streamEvents]
    split_ifs
    · exact statsEv_not_mem_streamEvents lat u rest acc
    · intro hu
      rcases List.mem_cons.mp hu with h | h
      · cases h
      · exact statsEv_not_mem_streamEvents lat u rest (acc ++ c) h

lemma sendTextMessage_est (now : ℤ) (ctx : ℚ) (text : String)
    (chunks : List (ℤ × String)) (st : ServiceState) :
    (sendTextMessage now ctx text chunks st).1.stats.estimatedTokens =
      st.stats.estimatedTokens ∧
    ∀ u, Event.statsEv u ∈ (sendTextMessage now ctx text chunks st).2.1 →
      u.estimatedTokens = st.stats.estimatedTokens := by
  simp only [sendTextMessage]
  split_ifs <;> refine ⟨rfl, fun u hu => ?_⟩ <;>
    simp [recordTokenUsage, updateStats, stopAudioOutput,
      statsEv_not_mem_streamEvents] at hu <;>
    first
      | exact hu.elim
      | (rcases hu with rfl | rfl | rfl <;> rfl)
      | (rcases hu with rfl | rfl <;> rfl)
      | (rcases hu with rfl
         rfl)

lemma sendVideoFrame_est (now : ℤ) (f : String) (st : ServiceState) :
    (sendVideoFrame now f st).1.stats.estimatedTokens = st.stats.estimatedTokens ∧
    ∀ u, Event.statsEv u ∈ (sendVideoFrame now f st).2 →
      u.estimatedTokens = st.stats.estimatedTokens := by
  simp only [sendVideoFrame]
  refine ⟨rfl, fun u hu => ?_⟩
  simp [recordTokenUsage, updateStats] at hu
  rcases hu with rfl
  rfl

lemma notifyScreenStart_est (now : ℤ) (st : ServiceState) :
    (notifyScreenStart now st).1.stats.estimatedTokens = st.stats.estimatedTokens ∧
    ∀ u, Event.statsEv u ∈ (notifyScreenStart now st).2 →
      u.estimatedTokens = st.stats.estimatedTokens := by
  simp only [notifyScreenStart]
  split_ifs <;> refine ⟨rfl, fun u hu => ?_⟩ <;>
    simp [recordTokenUsage, updateStats] at hu <;>
    first
      | exact hu.elim
      | (rcases hu with rfl
         rfl)

lemma notifyVideoStateChange_est (p : Bool) (st : ServiceState) :
    (notifyVideoStateChange p st).1.stats.estimatedTokens = st.stats.estimatedTokens ∧
    ∀ u, Event.statsEv u ∈ (notifyVideoStateChange p st).2 →
      u.estimatedTokens = st.stats.estimatedTokens := by
  cases p <;> simp only [notifyVideoStateChange] <;>
    split_ifs <;> refine ⟨rfl, fun u hu => ?_⟩ <;> simp at hu

lemma statsTick_est (now : ℤ) (st : ServiceState) :
    (statsTick now st).1.stats.estimatedTokens = st.stats.estimatedTokens ∧
    ∀ u, Event.statsEv u ∈ (statsTick now st).2 →
      u.estimatedTokens = st.stats.estimatedTokens := by
  simp only [statsTick]
  split_ifs
  · exact updateStats_est now st
  · exact ⟨rfl, fun u hu => by simp at hu⟩

lemma disconnect_est (c : ℚ) (st : ServiceState) :
    (disconnect c st).1.stats.estimatedTokens = st.stats.estimatedTokens ∧
    ∀ u, Event.statsEv u ∈ (disconnect c st).2 →
      u.estimatedTokens = st.stats.estimatedTokens := by
  simp only [disconnect]
  split_ifs <;> refine ⟨rfl, fun u hu => ?_⟩ <;> simp at hu

lemma connectReset_est (c : ℚ) (st : ServiceState) :
    (connectReset c st).1.stats.estimatedTokens = 0 ∧
    ∀ u, Event.statsEv u ∈ (connectReset c st).2 → u.estimatedTokens = 0 := by
  refine ⟨rfl, fun u hu => ?_⟩
  simp [connectReset] at hu
  simp [hu]

lemma stepOp_est (exec : FunctionCall → String) (op : Op) (st : ServiceState)
    (h : st.stats.estimatedTokens = 0) :
    (stepOp exec op st).1.stats.estimatedTokens = 0 ∧
    ∀ u, Event.statsEv u ∈ (stepOp exec op st).2 → u.estimatedTokens = 0 := by
  cases op with
  | connectOp c => exact connectReset_est c st
  | message n c m =>
    have hm := handleMessage_est n c exec m st
    exact ⟨by rw [show (stepOp exec (Op.message n c m) st) =
        handleMessage n c exec m st from rfl, hm.1, h],
      fun u hu => by rw [hm.2 u hu, h]⟩
  | videoFrame n f =>
    have hm := sendVideoFrame_est n f st
    exact ⟨by rw [show (stepOp exec (Op.videoFrame n f) st) = sendVideoFrame n f st from rfl,
        hm.1, h],
      fun u hu => by rw [hm.2 u hu, h]⟩
  | screenStart n =>
    have hm := notifyScreenStart_est n st
    exact ⟨by rw [show (stepOp exec (Op.screenStart n) st) = notifyScreenStart n st from rfl,
        hm.1, h],
      fun u hu => by rw [hm.2 u hu, h]⟩
  | videoState p =>
    have hm := notifyVideoStateChange_est p st
    exact ⟨by rw [show (stepOp exec (Op.videoState p) st) = notifyVideoStateChange p st from rfl,
        hm.1, h],
      fun u hu => by rw [hm.2 u hu, h]⟩
  | textMessage n c t ch =>
    have hm := sendTextMessage_est n c t ch st
    exact ⟨by rw [show (stepOp exec (Op.textMessage n c t ch) st).1 =
        (sendTextMessage n c t ch st).1 from rfl, hm.1, h],
      fun u hu => by rw [hm.2 u hu, h]⟩
  | tick n =>
    have hm := statsTick_est n st
    exact ⟨by rw [show (stepOp exec (Op.tick n) st) = statsTick n st from rfl, hm.1, h],
      fun u hu => by rw [hm.2 u hu, h]⟩
  | disconnectOp c =>
    have hm := disconnect_est c st
    exact ⟨by rw [show (stepOp exec (Op.disconnectOp c) st) = disconnect c st from rfl,
        hm.1, h],
      fun u hu => by rw [hm.2 u hu, h]⟩

lemma runOps_est (exec : FunctionCall → String) :
    ∀ (ops : List Op) (st : ServiceState), st.stats.estimatedTokens = 0 →
      (runOps exec ops st).1.stats.estimatedTokens = 0 ∧
      ∀ u, Event.statsEv u ∈ (runOps exec ops st).2 → u.estimatedTokens = 0
  | [], st, h => ⟨h, fun u hu => by simp [runOps_nil] at hu⟩
  | op :: ops, st, h => by
    have hstep := stepOp_est exec op st h
    have hrest := runOps_est exec ops (stepOp exec op st).1 hstep.1
    rw [runOps_cons]
    refine ⟨hrest.1, fun u hu => ?_⟩
    rcases List.mem_append.mp hu with hl | hr
    · exact hstep.2 u hl
    · exact hrest.2 u hr

/-- C10: `estimatedTokens` is invariantly zero. It starts at 0, every
`connect` resets it to 0, and no operation of the service ever writes it
(`recordTokenUsage` only appends to the sliding-window ledger and
recomputes `tokensPerMinute`), so the final state and every stats
snapshot delivered through the `onStats` callback carry
`estimatedTokens = 0`. -/
theorem C10_estimated_tokens_zero (exec : FunctionCall → String) (ops : List Op) :
    (runOps exec ops initialState).1.stats.estimatedTokens = 0 ∧
    ∀ u, Event.statsEv u ∈ (runOps exec ops initialState).2 → u.estimatedTokens = 0 :=
  runOps_est exec ops initialState rfl

theorem C10_estimated_tokens_zero_witness :
    (runOps (fun _ => "ok") [Op.connectOp 0, Op.videoFrame 1 "frame", Op.tick 2,
        Op.disconnectOp 3] initialState).1.stats.estimatedTokens = 0 ∧
    ∀ u, Event.statsEv u ∈ (runOps (fun _ => "ok") [Op.connectOp 0, Op.videoFrame 1 "frame",
        Op.tick 2, Op.disconnectOp 3] initialState).2 → u.estimatedTokens = 0 :=
  C10_estimated_tokens_zero (fun _ => "ok") [Op.connectOp 0, Op.videoFrame 1 "frame",
    Op.tick 2, Op.disconnectOp 3]
